import Mathlib

/-!
Verification of the mollab particle core (`src/mollab/core/atom.py`) and the
grouping utility (`src/mollab/plugins/input/input_base.py`).

Positions are numpy float arrays of length 3 in the source; they are modelled
here as triples of real numbers.  Methods that mutate an object in place are
modelled as functions from the old state to the new state; methods that can
raise are modelled with `Except String`, carrying the raised message.
-/

namespace Mollab

open scoped Classical

/-- A 3-vector of coordinates, modelling a numpy array of three floats. -/
@[ext]
structure Vec3 where
  x : ℝ
  y : ℝ
  z : ℝ

def Vec3.add (a b : Vec3) : Vec3 := ⟨a.x + b.x, a.y + b.y, a.z + b.z⟩

def Vec3.sub (a b : Vec3) : Vec3 := ⟨a.x - b.x, a.y - b.y, a.z - b.z⟩

def Vec3.smul (c : ℝ) (a : Vec3) : Vec3 := ⟨c * a.x, c * a.y, c * a.z⟩

/-- `np.linalg.norm` on a 3-vector. -/
noncomputable def Vec3.norm (a : Vec3) : ℝ := Real.sqrt (a.x ^ 2 + a.y ^ 2 + a.z ^ 2)

def Vec3.zero : Vec3 := ⟨0, 0, 0⟩

/-- Modelled from the spec: the Transform Engine's `translate(position, dx, dy, dz)`
is plain vector addition.  The `Item` base class providing `_move` is not among
the sources; only its caller `Atom.move` is. -/
def Item_move (p : Vec3) (dx dy dz : ℝ) : Vec3 := ⟨p.x + dx, p.y + dy, p.z + dz⟩

/-- `Atom.move(x, y, z)`: applies the translate primitive to the current
position and stores the result (atom.py, `move`). -/
def Atom_move (pos : Vec3) (x y z : ℝ) : Vec3 := Item_move pos x y z

/-- The message raised by `seperate_with` on coincident positions (atom.py line 169). -/
def degenerateMsg : String := "两个atom完全重叠, 无法计算方向矢量"

/-- The orientation vector of `seperate_with`: `targetItem.position - self.position`. -/
def oriVec (sp tp : Vec3) : Vec3 := Vec3.sub tp sp

/-- The unit orientation vector of `seperate_with`: `oriVec / distance`. -/
noncomputable def uniVec (sp tp : Vec3) : Vec3 :=
  Vec3.smul (1 / (oriVec sp tp).norm) (oriVec sp tp)

/-- `Atom.seperate_with(targetItem, type, value)` (atom.py lines 159-186), acting on
the pair of positions.  The source raises `ValueError` when the two positions
coincide, otherwise runs two sequential `if` blocks: one for mode strings
`"relative"`/`"rel"`, one for mode strings `"abusolute"`/`"abs"` (sic — the
string `"absolute"` matches neither).  Any other mode leaves both positions
unchanged and returns normally. -/
noncomputable def seperate_with (sp tp : Vec3) (mode : String) (value : ℝ) :
    Except String (Vec3 × Vec3) :=
  if sp = tp then .error degenerateMsg
  else
    let distance := (oriVec sp tp).norm
    let uni := uniVec sp tp
    let st1 : Vec3 × Vec3 :=
      if mode = "relative" ∨ mode = "rel" then
        let d2 := distance * (value - 1) / 2
        (Atom_move sp (-(uni.x * d2)) (-(uni.y * d2)) (-(uni.z * d2)),
         Atom_move tp (uni.x * d2) (uni.y * d2) (uni.z * d2))
      else (sp, tp)
    let st2 : Vec3 × Vec3 :=
      if mode = "abusolute" ∨ mode = "abs" then
        (Atom_move st1.1 (-(uni.x * value)) (-(uni.y * value)) (-(uni.z * value)),
         Atom_move st1.2 (uni.x * value) (uni.y * value) (uni.z * value))
      else st1
    .ok st2

/-- `Atom.distance_to(targetItem)` (atom.py lines 188-199). -/
noncomputable def distance_to (sp tp : Vec3) : ℝ := (Vec3.sub tp sp).norm

/-- `Atom.randmove(length)` (atom.py lines 93-104), with the random sample made
an explicit argument (the spec's §5 requires tests to inject a deterministic
source).  The source draws `vec = np.random.rand(3)` once, divides by its norm,
scales by `length` and moves — there is no re-sampling loop.  When the sample
is the zero vector numpy's division yields NaN coordinates; in this real-number
model division by zero yields zero, so the particle simply does not move.
Under either semantics the displacement magnitude is not `|length|`. -/
noncomputable def randmove_step (pos samp : Vec3) (length : ℝ) : Vec3 :=
  let v1 := Vec3.smul (1 / samp.norm) samp
  let v2 := Vec3.smul length v1
  Atom_move pos v2.x v2.y v2.z

/-! ### Basic norm lemmas -/

lemma Vec3.norm_nonneg (a : Vec3) : 0 ≤ a.norm := Real.sqrt_nonneg _

lemma Vec3.norm_smul (c : ℝ) (a : Vec3) : (Vec3.smul c a).norm = |c| * a.norm := by
  unfold Vec3.norm Vec3.smul
  have h : (c * a.x) ^ 2 + (c * a.y) ^ 2 + (c * a.z) ^ 2
      = c ^ 2 * (a.x ^ 2 + a.y ^ 2 + a.z ^ 2) := by ring
  rw [h, Real.sqrt_mul (sq_nonneg c), Real.sqrt_sq_eq_abs]

lemma Vec3.norm_eq_zero_iff (a : Vec3) : a.norm = 0 ↔ a = Vec3.zero := by
  unfold Vec3.norm Vec3.zero
  constructor
  · intro h
    have hle : a.x ^ 2 + a.y ^ 2 + a.z ^ 2 ≤ 0 := Real.sqrt_eq_zero'.mp h
    have hx : a.x = 0 := by nlinarith [sq_nonneg a.x, sq_nonneg a.y, sq_nonneg a.z]
    have hy : a.y = 0 := by nlinarith [sq_nonneg a.x, sq_nonneg a.y, sq_nonneg a.z]
    have hz : a.z = 0 := by nlinarith [sq_nonneg a.x, sq_nonneg a.y, sq_nonneg a.z]
    exact Vec3.ext hx hy hz
  · intro h
    rw [h]
    simp [Real.sqrt_eq_zero']

lemma Vec3.sub_eq_zero_iff (a b : Vec3) : Vec3.sub b a = Vec3.zero ↔ a = b := by
  unfold Vec3.sub Vec3.zero
  constructor
  · intro h
    have hx := congrArg Vec3.x h
    have hy := congrArg Vec3.y h
    have hz := congrArg Vec3.z h
    simp only at hx hy hz
    exact Vec3.ext (by linarith) (by linarith) (by linarith)
  · intro h
    rw [h]
    exact Vec3.ext (by simp) (by simp) (by simp)

lemma oriVec_norm_pos {sp tp : Vec3} (h : sp ≠ tp) : 0 < (oriVec sp tp).norm := by
  rcases lt_or_eq_of_le (Vec3.norm_nonneg (oriVec sp tp)) with hlt | heq
  · exact hlt
  · exfalso
    exact h ((Vec3.sub_eq_zero_iff sp tp).mp ((Vec3.norm_eq_zero_iff _).mp heq.symm))

lemma uniVec_norm {sp tp : Vec3} (h : sp ≠ tp) : (uniVec sp tp).norm = 1 := by
  unfold uniVec
  have hpos := oriVec_norm_pos h
  rw [Vec3.norm_smul, abs_of_pos (by positivity : (0:ℝ) < 1 / (oriVec sp tp).norm)]
  field_simp

lemma Vec3.smul_smul (a b : ℝ) (v : Vec3) :
    Vec3.smul a (Vec3.smul b v) = Vec3.smul (a * b) v := by
  unfold Vec3.smul
  ext <;> dsimp <;> ring

lemma Vec3.one_smul (v : Vec3) : Vec3.smul 1 v = v := by
  unfold Vec3.smul
  ext <;> dsimp <;> ring

lemma Vec3.sub_x (a b : Vec3) : (Vec3.sub a b).x = a.x - b.x := rfl

lemma Vec3.sub_y (a b : Vec3) : (Vec3.sub a b).y = a.y - b.y := rfl

lemma Vec3.sub_z (a b : Vec3) : (Vec3.sub a b).z = a.z - b.z := rfl

lemma Vec3.smul_x (c : ℝ) (v : Vec3) : (Vec3.smul c v).x = c * v.x := rfl

lemma Vec3.smul_y (c : ℝ) (v : Vec3) : (Vec3.smul c v).y = c * v.y := rfl

lemma Vec3.smul_z (c : ℝ) (v : Vec3) : (Vec3.smul c v).z = c * v.z := rfl

lemma Atom_move_x (p : Vec3) (dx dy dz : ℝ) : (Atom_move p dx dy dz).x = p.x + dx := rfl

lemma Atom_move_y (p : Vec3) (dx dy dz : ℝ) : (Atom_move p dx dy dz).y = p.y + dy := rfl

lemma Atom_move_z (p : Vec3) (dx dy dz : ℝ) : (Atom_move p dx dy dz).z = p.z + dz := rfl

lemma oriVec_x (sp tp : Vec3) : (oriVec sp tp).x = tp.x - sp.x := rfl

lemma oriVec_y (sp tp : Vec3) : (oriVec sp tp).y = tp.y - sp.y := rfl

lemma oriVec_z (sp tp : Vec3) : (oriVec sp tp).z = tp.z - sp.z := rfl

lemma oriVec_eq_smul {sp tp : Vec3} (h : sp ≠ tp) :
    oriVec sp tp = Vec3.smul ((oriVec sp tp).norm) (uniVec sp tp) := by
  have hne : (oriVec sp tp).norm ≠ 0 := ne_of_gt (oriVec_norm_pos h)
  unfold uniVec
  rw [Vec3.smul_smul, mul_one_div, div_self hne, Vec3.one_smul]

/-- The pair of positions produced by the `"abusolute"`/`"abs"` branch of
`seperate_with`: each moves by `value` along the unit orientation vector,
away from the other. -/
noncomputable def absPair (sp tp : Vec3) (value : ℝ) : Vec3 × Vec3 :=
  (Atom_move sp (-((uniVec sp tp).x * value)) (-((uniVec sp tp).y * value))
      (-((uniVec sp tp).z * value)),
   Atom_move tp ((uniVec sp tp).x * value) ((uniVec sp tp).y * value)
      ((uniVec sp tp).z * value))

/-- The pair of positions produced by the `"relative"`/`"rel"` branch of
`seperate_with`: each moves by `d*(value-1)/2` along the unit orientation
vector, away from the other. -/
noncomputable def relPair (sp tp : Vec3) (value : ℝ) : Vec3 × Vec3 :=
  (Atom_move sp (-((uniVec sp tp).x * ((oriVec sp tp).norm * (value - 1) / 2)))
      (-((uniVec sp tp).y * ((oriVec sp tp).norm * (value - 1) / 2)))
      (-((uniVec sp tp).z * ((oriVec sp tp).norm * (value - 1) / 2))),
   Atom_move tp ((uniVec sp tp).x * ((oriVec sp tp).norm * (value - 1) / 2))
      ((uniVec sp tp).y * ((oriVec sp tp).norm * (value - 1) / 2))
      ((uniVec sp tp).z * ((oriVec sp tp).norm * (value - 1) / 2)))

lemma seperate_with_abs_eq {sp tp : Vec3} {mode : String} (value : ℝ) (h : sp ≠ tp)
    (h1 : ¬(mode = "relative" ∨ mode = "rel")) (h2 : mode = "abusolute" ∨ mode = "abs") :
    seperate_with sp tp mode value = .ok (absPair sp tp value) := by
  unfold seperate_with absPair
  rw [if_neg h]
  simp only [if_neg h1, if_pos h2]

lemma seperate_with_rel_eq {sp tp : Vec3} {mode : String} (value : ℝ) (h : sp ≠ tp)
    (h1 : mode = "relative" ∨ mode = "rel") (h2 : ¬(mode = "abusolute" ∨ mode = "abs")) :
    seperate_with sp tp mode value = .ok (relPair sp tp value) := by
  unfold seperate_with relPair
  rw [if_neg h]
  simp only [if_pos h1, if_neg h2]

lemma seperate_with_other_mode {sp tp : Vec3} {mode : String} (value : ℝ) (h : sp ≠ tp)
    (h1 : ¬(mode = "relative" ∨ mode = "rel")) (h2 : ¬(mode = "abusolute" ∨ mode = "abs")) :
    seperate_with sp tp mode value = .ok (sp, tp) := by
  unfold seperate_with
  rw [if_neg h]
  simp only [if_neg h1, if_neg h2]

lemma distance_to_eq_oriVec_norm (sp tp : Vec3) : distance_to sp tp = (oriVec sp tp).norm := rfl

lemma dist_absPair {sp tp : Vec3} (value : ℝ) (h : sp ≠ tp) :
    distance_to (absPair sp tp value).1 (absPair sp tp value).2
      = |distance_to sp tp + 2 * value| := by
  have hx := congrArg Vec3.x (oriVec_eq_smul h)
  have hy := congrArg Vec3.y (oriVec_eq_smul h)
  have hz := congrArg Vec3.z (oriVec_eq_smul h)
  rw [Vec3.smul_x, oriVec_x] at hx
  rw [Vec3.smul_y, oriVec_y] at hy
  rw [Vec3.smul_z, oriVec_z] at hz
  have key : Vec3.sub (absPair sp tp value).2 (absPair sp tp value).1
      = Vec3.smul ((oriVec sp tp).norm + 2 * value) (uniVec sp tp) := by
    unfold absPair
    ext
    · rw [Vec3.sub_x, Atom_move_x, Atom_move_x, Vec3.smul_x]
      linear_combination hx
    · rw [Vec3.sub_y, Atom_move_y, Atom_move_y, Vec3.smul_y]
      linear_combination hy
    · rw [Vec3.sub_z, Atom_move_z, Atom_move_z, Vec3.smul_z]
      linear_combination hz
  unfold distance_to
  rw [key, Vec3.norm_smul, uniVec_norm h, mul_one]
  rfl

lemma dist_relPair {sp tp : Vec3} (value : ℝ) (h : sp ≠ tp) :
    distance_to (relPair sp tp value).1 (relPair sp tp value).2
      = distance_to sp tp * |value| := by
  have hx := congrArg Vec3.x (oriVec_eq_smul h)
  have hy := congrArg Vec3.y (oriVec_eq_smul h)
  have hz := congrArg Vec3.z (oriVec_eq_smul h)
  rw [Vec3.smul_x, oriVec_x] at hx
  rw [Vec3.smul_y, oriVec_y] at hy
  rw [Vec3.smul_z, oriVec_z] at hz
  have key : Vec3.sub (relPair sp tp value).2 (relPair sp tp value).1
      = Vec3.smul ((oriVec sp tp).norm * value) (uniVec sp tp) := by
    unfold relPair
    ext
    · rw [Vec3.sub_x, Atom_move_x, Atom_move_x, Vec3.smul_x]
      linear_combination hx
    · rw [Vec3.sub_y, Atom_move_y, Atom_move_y, Vec3.smul_y]
      linear_combination hy
    · rw [Vec3.sub_z, Atom_move_z, Atom_move_z, Vec3.smul_z]
      linear_combination hz
  unfold distance_to
  rw [key, Vec3.norm_smul, uniVec_norm h, mul_one, abs_mul,
    abs_of_nonneg (Vec3.norm_nonneg _)]
  rfl

/-! ### Concrete-scenario helpers -/

lemma distance_to_nonneg (sp tp : Vec3) : 0 ≤ distance_to sp tp := Real.sqrt_nonneg _

lemma zero_ne_ten : (Vec3.mk 0 0 0) ≠ Vec3.mk 10 0 0 := by
  intro h
  have := congrArg Vec3.x h
  norm_num at this

lemma norm_axis (a : ℝ) : (Vec3.mk a 0 0).norm = |a| := by
  unfold Vec3.norm
  rw [show a ^ 2 + (0:ℝ) ^ 2 + (0:ℝ) ^ 2 = a ^ 2 by ring, Real.sqrt_sq_eq_abs]

lemma oriVec_ten : oriVec ⟨0, 0, 0⟩ ⟨10, 0, 0⟩ = ⟨10, 0, 0⟩ := by
  unfold oriVec Vec3.sub
  ext <;> dsimp <;> norm_num

lemma uniVec_ten : uniVec ⟨0, 0, 0⟩ ⟨10, 0, 0⟩ = ⟨1, 0, 0⟩ := by
  unfold uniVec
  rw [oriVec_ten, norm_axis]
  unfold Vec3.smul
  ext <;> dsimp <;> norm_num

lemma dist_zero_ten : distance_to ⟨0, 0, 0⟩ ⟨10, 0, 0⟩ = 10 := by
  unfold distance_to
  rw [show Vec3.sub ⟨10, 0, 0⟩ ⟨0, 0, 0⟩ = ⟨10, 0, 0⟩ by unfold Vec3.sub; ext <;> dsimp <;> norm_num,
    norm_axis]
  norm_num

lemma dist_ten_zero : distance_to ⟨10, 0, 0⟩ ⟨0, 0, 0⟩ = 10 := by
  unfold distance_to
  rw [show Vec3.sub ⟨0, 0, 0⟩ ⟨10, 0, 0⟩ = ⟨-10, 0, 0⟩ by unfold Vec3.sub; ext <;> dsimp <;> norm_num,
    norm_axis]
  norm_num

/-! ### Claim theorems: separation (C1, C4, C6) -/

/-- C6: for every pair of particles whose positions coincide exactly,
`seperate_with` fails with the DegenerateGeometry condition for every mode and
value; the check is the first statement of the method, so the error propagates
before any movement and both positions are unchanged. -/
theorem seperate_with_coincident_error (sp : Vec3) (mode : String) (value : ℝ) :
    seperate_with sp sp mode value = .error degenerateMsg := by
  unfold seperate_with
  rw [if_pos rfl]

/-- C1 counterexample: the mode string `"absolute"` is recognized by neither
branch of `seperate_with` (the source tests `"abusolute"`/`"abs"`), so
`A.seperate_with(B, "absolute", 2)` with `A` at `(0,0,0)` and `B` at `(10,0,0)`
leaves both positions unchanged; in particular `A` is not at `(-2,0,0)`. -/
theorem seperate_with_absolute_noop :
    seperate_with ⟨0, 0, 0⟩ ⟨10, 0, 0⟩ "absolute" 2 = .ok (⟨0, 0, 0⟩, ⟨10, 0, 0⟩) ∧
    Vec3.mk 0 0 0 ≠ Vec3.mk (-2) 0 0 := by
  constructor
  · exact seperate_with_other_mode 2 zero_ne_ten (by decide) (by decide)
  · intro h
    have := congrArg Vec3.x h
    norm_num at this

/-- C1 (amended): the mode strings the code recognizes for the absolute
behaviour are `"abs"` and `"abusolute"` — the string `"absolute"` of the claim
is a silent no-op.  Under either recognized string, each particle moves exactly
`value` along the unit orientation vector away from the other; the new
separation is `|d + 2*value|`, hence the separation changes by exactly
`2*value` whenever `value ≥ 0`. -/
theorem seperate_with_abs_mode_spec (sp tp : Vec3) (value : ℝ) (h : sp ≠ tp) :
    seperate_with sp tp "abs" value = .ok (absPair sp tp value) ∧
    seperate_with sp tp "abusolute" value = .ok (absPair sp tp value) ∧
    seperate_with sp tp "absolute" value = .ok (sp, tp) ∧
    (absPair sp tp value).1 = Vec3.sub sp (Vec3.smul value (uniVec sp tp)) ∧
    (absPair sp tp value).2 = Vec3.add tp (Vec3.smul value (uniVec sp tp)) ∧
    distance_to (absPair sp tp value).1 (absPair sp tp value).2
      = |distance_to sp tp + 2 * value| ∧
    (0 ≤ value →
      distance_to (absPair sp tp value).1 (absPair sp tp value).2
        = distance_to sp tp + 2 * value) := by
  refine ⟨seperate_with_abs_eq value h (by decide) (by decide),
          seperate_with_abs_eq value h (by decide) (by decide),
          seperate_with_other_mode value h (by decide) (by decide),
          ?_, ?_, dist_absPair value h, ?_⟩
  · unfold absPair Vec3.sub Vec3.smul Atom_move Item_move
    ext <;> dsimp <;> ring
  · unfold absPair Vec3.add Vec3.smul Atom_move Item_move
    ext <;> dsimp <;> ring
  · intro hv
    have hd := distance_to_nonneg sp tp
    rw [dist_absPair value h, abs_of_nonneg (by linarith)]

/-- C1 witness: the claim's concrete scenario, run with the recognized mode
string `"abs"`: `A` ends at `(-2,0,0)`, `B` at `(12,0,0)`, and the separation
grows by `2*2`. -/
theorem seperate_with_abs_mode_witness :
    seperate_with ⟨0, 0, 0⟩ ⟨10, 0, 0⟩ "abs" 2 = .ok (⟨-2, 0, 0⟩, ⟨12, 0, 0⟩) ∧
    distance_to (Vec3.mk (-2) 0 0) (Vec3.mk 12 0 0)
      = distance_to ⟨0, 0, 0⟩ ⟨10, 0, 0⟩ + 2 * 2 := by
  obtain ⟨h1, _, _, _, _, _, h7⟩ :=
    seperate_with_abs_mode_spec ⟨0, 0, 0⟩ ⟨10, 0, 0⟩ 2 zero_ne_ten
  have habs : absPair ⟨0, 0, 0⟩ ⟨10, 0, 0⟩ 2 = (⟨-2, 0, 0⟩, ⟨12, 0, 0⟩) := by
    unfold absPair
    rw [uniVec_ten]
    unfold Atom_move Item_move
    simp only [Prod.mk.injEq]
    constructor <;> (ext <;> dsimp <;> norm_num)
  rw [habs] at h1
  have h7' := h7 (by norm_num)
  rw [habs] at h7'
  exact ⟨h1, h7'⟩

/-- C4 counterexample: for a negative `value` the new separation is a
nonnegative distance, not `d*value`: with `A` at `(0,0,0)`, `B` at `(10,0,0)`
and `value = -1`, the relative mode swaps the particles and the new separation
is `10`, not `10 * (-1)`. -/
theorem seperate_with_relative_negative_cx :
    seperate_with ⟨0, 0, 0⟩ ⟨10, 0, 0⟩ "relative" (-1) = .ok (⟨10, 0, 0⟩, ⟨0, 0, 0⟩) ∧
    distance_to (Vec3.mk 10 0 0) (Vec3.mk 0 0 0)
      ≠ distance_to ⟨0, 0, 0⟩ ⟨10, 0, 0⟩ * (-1) := by
  constructor
  · have h1 := @seperate_with_rel_eq ⟨0, 0, 0⟩ ⟨10, 0, 0⟩ "relative" (-1) zero_ne_ten
      (by decide) (by decide)
    have hrel : relPair ⟨0, 0, 0⟩ ⟨10, 0, 0⟩ (-1) = (⟨10, 0, 0⟩, ⟨0, 0, 0⟩) := by
      unfold relPair
      rw [uniVec_ten, oriVec_ten, norm_axis]
      unfold Atom_move Item_move
      simp only [Prod.mk.injEq]
      constructor <;> (ext <;> dsimp <;> norm_num)
    rw [hrel] at h1
    exact h1
  · rw [dist_ten_zero, dist_zero_ten]
    norm_num

/-- C4 (amended): with mode `"relative"` (or `"rel"`) and current distance `d`,
each particle moves `d*(value-1)/2` along the unit orientation vector away from
the other; the new separation equals `d * |value|`, which is `d * value`
whenever `value ≥ 0` (the claim's unqualified `d * value` fails for negative
`value`, the separation being a nonnegative distance). -/
theorem seperate_with_relative_spec (sp tp : Vec3) (value : ℝ) (h : sp ≠ tp) :
    seperate_with sp tp "relative" value = .ok (relPair sp tp value) ∧
    seperate_with sp tp "rel" value = .ok (relPair sp tp value) ∧
    (relPair sp tp value).1
      = Vec3.sub sp (Vec3.smul (distance_to sp tp * (value - 1) / 2) (uniVec sp tp)) ∧
    (relPair sp tp value).2
      = Vec3.add tp (Vec3.smul (distance_to sp tp * (value - 1) / 2) (uniVec sp tp)) ∧
    distance_to (relPair sp tp value).1 (relPair sp tp value).2
      = distance_to sp tp * |value| ∧
    (0 ≤ value →
      distance_to (relPair sp tp value).1 (relPair sp tp value).2
        = distance_to sp tp * value) := by
  refine ⟨seperate_with_rel_eq value h (by decide) (by decide),
          seperate_with_rel_eq value h (by decide) (by decide),
          ?_, ?_, dist_relPair value h, ?_⟩
  · unfold relPair Vec3.sub Vec3.smul Atom_move Item_move distance_to oriVec
    ext <;> dsimp <;> ring
  · unfold relPair Vec3.add Vec3.smul Atom_move Item_move distance_to oriVec
    ext <;> dsimp <;> ring
  · intro hv
    rw [dist_relPair value h, abs_of_nonneg hv]

/-- C4 witness: the claim's concrete scenario: initial distance `10`,
`seperate_with(B, "relative", 2)` ends with the particles at `(-5,0,0)` and
`(15,0,0)`, final distance `20`. -/
theorem seperate_with_relative_witness :
    seperate_with ⟨0, 0, 0⟩ ⟨10, 0, 0⟩ "relative" 2 = .ok (⟨-5, 0, 0⟩, ⟨15, 0, 0⟩) ∧
    distance_to (Vec3.mk (-5) 0 0) (Vec3.mk 15 0 0) = 20 := by
  obtain ⟨h1, _, _, _, _, h6⟩ :=
    seperate_with_relative_spec ⟨0, 0, 0⟩ ⟨10, 0, 0⟩ 2 zero_ne_ten
  have hrel : relPair ⟨0, 0, 0⟩ ⟨10, 0, 0⟩ 2 = (⟨-5, 0, 0⟩, ⟨15, 0, 0⟩) := by
    unfold relPair
    rw [uniVec_ten, oriVec_ten, norm_axis]
    unfold Atom_move Item_move
    simp only [Prod.mk.injEq]
    constructor <;> (ext <;> dsimp <;> norm_num)
  rw [hrel] at h1
  have h6' := h6 (by norm_num)
  rw [hrel, dist_zero_ten] at h6'
  norm_num at h6'
  exact ⟨h1, h6'⟩

/-! ### Claim theorem: random move (C9) -/

/-- C9: contrary to the claim, `randmove` does not re-sample when the random
source yields the zero vector: the source normalizes the single sample
unconditionally.  On the zero sample the displacement has magnitude `0`, not
`|length|` (in numpy the coordinates additionally become NaN; in this
real-number model division by zero gives zero and the particle stays put). -/
theorem randmove_zero_vector_no_resample (pos : Vec3) :
    randmove_step pos Vec3.zero 1 = pos ∧
    distance_to pos (randmove_step pos Vec3.zero 1) = 0 ∧
    distance_to pos (randmove_step pos Vec3.zero 1) ≠ |(1 : ℝ)| := by
  have hmove : randmove_step pos Vec3.zero 1 = pos := by
    unfold randmove_step Vec3.smul Vec3.zero Atom_move Item_move
    ext <;> dsimp <;> ring
  have hdist : distance_to pos (randmove_step pos Vec3.zero 1) = 0 := by
    rw [hmove]
    unfold distance_to
    rw [show Vec3.sub pos pos = Vec3.zero by unfold Vec3.sub Vec3.zero; ext <;> dsimp <;> ring]
    exact (Vec3.norm_eq_zero_iff Vec3.zero).mpr rfl
  refine ⟨hmove, hdist, ?_⟩
  rw [hdist]
  norm_num

/-! ### Bonding: add_neighbors / add_bonds (C2, C8) -/

/-- A Python value passed to `add_bonds`: either an Atom (identified here by an
index into the neighbor table) or a non-Atom value carrying the printed form of
its Python type. -/
inductive PyVal where
  | atom (j : ℕ)
  | other (tyName : String)

/-- The message of the `TypeError` raised by `add_neighbors` (atom.py line 61);
it names the offending type. -/
def typeKindMsg (tyName : String) : String :=
  "相邻的atom应该是 ATOM类 而不是 " ++ tyName

/-- The second half of one `add_neighbors` loop iteration (atom.py lines 57-58):
append `s` to the neighbor list of `j` unless already present. -/
def bondStep2 (σ : ℕ → List ℕ) (s j : ℕ) : ℕ → List ℕ :=
  if s ∈ σ j then σ else Function.update σ j (σ j ++ [s])

/-- One `add_neighbors` loop iteration for an Atom argument (atom.py lines
54-58): append `j` to the neighbor list of `s` unless already present, then
symmetrically for `s` in the list of `j`.  Modelled from the spec: the
membership test `atom not in self` (the `Item` base class is not among the
sources) is the membership test against the bonding set, per spec §9. -/
def bondStep (σ : ℕ → List ℕ) (s j : ℕ) : ℕ → List ℕ :=
  bondStep2 (if j ∈ σ s then σ else Function.update σ s (σ s ++ [j])) s j

/-- `Atom.add_neighbors(*atoms)` (atom.py lines 47-61) over the neighbor table:
the loop processes the arguments in order and raises `TypeError` at the first
non-Atom argument. -/
def add_neighbors (σ : ℕ → List ℕ) (s : ℕ) : List PyVal → Except String (ℕ → List ℕ)
  | [] => .ok σ
  | .atom j :: rest => add_neighbors (bondStep σ s j) s rest
  | .other tyName :: _ => .error (typeKindMsg tyName)

lemma mem_bondStep2_right (σ : ℕ → List ℕ) (s j : ℕ) : s ∈ bondStep2 σ s j j := by
  unfold bondStep2
  by_cases h : s ∈ σ j
  · rw [if_pos h]
    exact h
  · rw [if_neg h, Function.update_same]
    exact List.mem_append_right _ (List.mem_singleton.mpr rfl)

lemma mem_bondStep2_preserved (σ : ℕ → List ℕ) (s j : ℕ) (hmem : j ∈ σ s) :
    j ∈ bondStep2 σ s j s := by
  unfold bondStep2
  by_cases h : s ∈ σ j
  · rw [if_pos h]
    exact hmem
  · rw [if_neg h]
    by_cases hsj : s = j
    · subst hsj
      rw [Function.update_same]
      exact List.mem_append_left _ hmem
    · rw [Function.update_noteq hsj]
      exact hmem

lemma mem_bondStep_self (σ : ℕ → List ℕ) (s j : ℕ) : j ∈ bondStep σ s j s := by
  unfold bondStep
  apply mem_bondStep2_preserved
  by_cases h1 : j ∈ σ s
  · rw [if_pos h1]
    exact h1
  · rw [if_neg h1, Function.update_same]
    exact List.mem_append_right _ (List.mem_singleton.mpr rfl)

lemma mem_bondStep_right (σ : ℕ → List ℕ) (s j : ℕ) : s ∈ bondStep σ s j j := by
  unfold bondStep
  exact mem_bondStep2_right _ s j

lemma bondStep_idem (σ : ℕ → List ℕ) (s j : ℕ) :
    bondStep (bondStep σ s j) s j = bondStep σ s j := by
  have h1 := mem_bondStep_self σ s j
  have h2 := mem_bondStep_right σ s j
  conv_lhs => rw [bondStep]
  rw [if_pos h1]
  unfold bondStep2
  rw [if_pos h2]

/-- C2: after `A.add_bonds(B)` the bonding relation is symmetric — `B` is in the
neighbor list of `A` and `A` in that of `B` — and a second identical call is a
no-op: it returns the very same neighbor table, so in particular both neighbor
lists keep their lengths. -/
theorem add_bonds_symmetric_idempotent (σ : ℕ → List ℕ) (s j : ℕ) :
    add_neighbors σ s [.atom j] = .ok (bondStep σ s j) ∧
    j ∈ bondStep σ s j s ∧
    s ∈ bondStep σ s j j ∧
    add_neighbors (bondStep σ s j) s [.atom j] = .ok (bondStep σ s j) ∧
    (bondStep (bondStep σ s j) s j s).length = (bondStep σ s j s).length ∧
    (bondStep (bondStep σ s j) s j j).length = (bondStep σ s j j).length := by
  have hid := bondStep_idem σ s j
  refine ⟨rfl, mem_bondStep_self σ s j, mem_bondStep_right σ s j, ?_, by rw [hid], by rw [hid]⟩
  show Except.ok (bondStep (bondStep σ s j) s j) = Except.ok (bondStep σ s j)
  rw [hid]

/-- C8: a non-Atom argument makes `add_bonds` fail with the `TypeKind`
condition whose message names the offending type; the loop raises at the first
non-Atom argument, immediately, with no recovery. -/
theorem add_bonds_type_error (σ : ℕ → List ℕ) (s : ℕ) (pre : List PyVal)
    (tyName : String) (post : List PyVal)
    (h : ∀ v ∈ pre, ∃ j, v = PyVal.atom j) :
    add_neighbors σ s (pre ++ PyVal.other tyName :: post) = .error (typeKindMsg tyName) := by
  induction pre generalizing σ with
  | nil => rfl
  | cons v rest ih =>
    obtain ⟨j, rfl⟩ := h v (List.mem_cons_self v rest)
    exact ih (bondStep σ s j) fun w hw => h w (List.mem_cons_of_mem _ hw)

/-- C8 witness: a call whose second argument is a string is rejected with the
message naming the offending type, after the first (valid) argument. -/
theorem add_bonds_type_error_witness :
    add_neighbors (fun _ => []) 0 [PyVal.atom 1, PyVal.other "str"]
      = .error (typeKindMsg "str") :=
  add_bonds_type_error (fun _ => []) 0 [PyVal.atom 1] "str" []
    (by
      intro v hv
      rw [List.mem_singleton] at hv
      exact ⟨1, hv⟩)

/-! ### Replication: duplicate (C3) -/

/-- A particle as tracked by the replica list: its label and position. -/
structure RAtom where
  label : String
  pos : Vec3

/-- Modelled from the spec: `Item.get_replica(label)` (the `Item` base class is
not among the sources) produces a structural copy of the particle — same
fields, fresh identity; object identity is not modelled here. -/
def get_replica (j : RAtom) : RAtom := ⟨j.label, j.pos⟩

/-- `Atom.duplicate(n, x, y, z)` (atom.py lines 201-221) acting on the replica
list `_duplicate`: outer loop over the existing replicas, inner loop over
`i = 1..n`, each turn appending to `temp` a copy moved by `i*(x,y,z)`; finally
`self._duplicate.extend(temp)`. -/
def duplicate (dup : List RAtom) (n : ℕ) (x y z : ℝ) : List RAtom :=
  let temp := dup.foldl
    (fun acc j =>
      acc ++ (List.range' 1 n).map
        (fun i => { get_replica j with
                      pos := Atom_move (get_replica j).pos ((i : ℝ) * x) ((i : ℝ) * y)
                        ((i : ℝ) * z) }))
    []
  dup ++ temp

lemma foldl_append_flatMap {α β : Type} (f : α → List β) :
    ∀ (l : List α) (acc : List β),
      l.foldl (fun a j => a ++ f j) acc = acc ++ l.flatMap f
  | [], acc => by simp
  | j :: rest, acc => by
    rw [List.foldl_cons, foldl_append_flatMap f rest (acc ++ f j), List.flatMap_cons,
      List.append_assoc]

lemma length_flatMap_const {α β : Type} (f : α → List β) (n : ℕ)
    (hf : ∀ a, (f a).length = n) :
    ∀ l : List α, (l.flatMap f).length = l.length * n
  | [] => by simp
  | j :: rest => by
    rw [List.flatMap_cons, List.length_append, hf j, length_flatMap_const f n hf rest,
      List.length_cons]
    ring

/-- C3: `duplicate(n, dx, dy, dz)` appends, after the existing entries and in
the order outer loop over existing replicas then inner loop over `i = 1..n`,
one copy of each existing replica per `i`, positioned at the source particle
pre-duplication position plus `i*(dx,dy,dz)`; the resulting replica list has
length `L*(n+1)` and starts with the original list unchanged (the method
mutates the list in place and returns self). -/
theorem duplicate_spec (dup : List RAtom) (n : ℕ) (x y z : ℝ) :
    duplicate dup n x y z
      = dup ++ dup.flatMap
          (fun j => (List.range' 1 n).map
            (fun i : ℕ => RAtom.mk j.label
              (Atom_move j.pos ((i : ℝ) * x) ((i : ℝ) * y) ((i : ℝ) * z)))) ∧
    (duplicate dup n x y z).length = dup.length * (n + 1) ∧
    (duplicate dup n x y z).take dup.length = dup := by
  have h1 : duplicate dup n x y z
      = dup ++ dup.flatMap
          (fun j => (List.range' 1 n).map
            (fun i : ℕ => RAtom.mk j.label
              (Atom_move j.pos ((i : ℝ) * x) ((i : ℝ) * y) ((i : ℝ) * z)))) := by
    unfold duplicate
    rw [foldl_append_flatMap, List.nil_append]
    rfl
  refine ⟨h1, ?_, ?_⟩
  · rw [h1, List.length_append, length_flatMap_const _ n (fun a => by
      rw [List.length_map, List.length_range'])]
    ring
  · rw [h1, List.take_left]

/-! ### Rotation: rotate / rotate_orth (C7) -/

def Vec3.dot (a b : Vec3) : ℝ := a.x * b.x + a.y * b.y + a.z * b.z

def Vec3.cross (a b : Vec3) : Vec3 :=
  ⟨a.y * b.z - a.z * b.y, a.z * b.x - a.x * b.z, a.x * b.y - a.y * b.x⟩

/-- Modelled from the spec: the Transform Engine's axis-angle rotation
(`Item._rotate` is not among the sources): Rodrigues rotation of `p` by the
angle `theta` about the normalized axis `(ax, ay, az)` through the origin. -/
noncomputable def Item_rotate (p : Vec3) (theta ax ay az : ℝ) : Vec3 :=
  let axis : Vec3 := ⟨ax, ay, az⟩
  let k := Vec3.smul (1 / axis.norm) axis
  Vec3.add
    (Vec3.add (Vec3.smul (Real.cos theta) p)
      (Vec3.smul (Real.sin theta) (Vec3.cross k p)))
    (Vec3.smul (Vec3.dot k p * (1 - Real.cos theta)) k)

/-- `Atom.rotate(theta, x, y, z, x0, y0, z0)` (atom.py lines 106-130): move by
the negated pivot, rotate about the axis direction `(x,y,z)`, move back. -/
noncomputable def Atom_rotate (pos : Vec3) (theta x y z x0 y0 z0 : ℝ) : Vec3 :=
  let p1 := Atom_move pos (-x0) (-y0) (-z0)
  let p2 := Item_rotate p1 theta x y z
  Atom_move p2 x0 y0 z0

/-- The message of the `SyntaxError` raised by `rotate_orth` (atom.py lines 154-156). -/
def axisSelectorMsg : String :=
  "为了指定空间中(x,y,z)的旋转轴的朝向, 需要将方向设定为1. 如: 旋转轴指向x方向则xAxis=1, yAxis=zAxis=0"

def boolToReal (b : Bool) : ℝ := if b then 1 else 0

/-- `Atom.rotate_orth(theta, x, y, z, xAxis, yAxis, zAxis)` (atom.py lines
132-157): requires the axis selector triple to be exactly one of the three
one-hot triples and then delegates to `rotate` with the selector as axis
direction and `(x,y,z)` as the pivot; otherwise raises `SyntaxError` without
touching the position. -/
noncomputable def rotate_orth (pos : Vec3) (theta x y z : ℝ) (xAxis yAxis zAxis : Bool) :
    Except String Vec3 :=
  if (xAxis, yAxis, zAxis) = (true, false, false) ∨
      (xAxis, yAxis, zAxis) = (false, true, false) ∨
      (xAxis, yAxis, zAxis) = (false, false, true) then
    .ok (Atom_rotate pos theta (boolToReal xAxis) (boolToReal yAxis) (boolToReal zAxis) x y z)
  else .error axisSelectorMsg

/-- C7: an axis-selector triple that is not exactly one-hot makes `rotate_orth`
fail with the InvalidAxisSelector condition and the position is not mutated
(the error is returned instead of a new position); each of the three one-hot
triples delegates to the general rotation about the pivot `(x,y,z)`. -/
theorem rotate_orth_selector_spec (pos : Vec3) (theta x y z : ℝ) (a b c : Bool) :
    (¬((a, b, c) = (true, false, false) ∨ (a, b, c) = (false, true, false) ∨
        (a, b, c) = (false, false, true)) →
      rotate_orth pos theta x y z a b c = .error axisSelectorMsg) ∧
    (((a, b, c) = (true, false, false) ∨ (a, b, c) = (false, true, false) ∨
        (a, b, c) = (false, false, true)) →
      rotate_orth pos theta x y z a b c
        = .ok (Atom_rotate pos theta (boolToReal a) (boolToReal b) (boolToReal c) x y z)) := by
  constructor
  · intro h
    unfold rotate_orth
    rw [if_neg h]
  · intro h
    unfold rotate_orth
    rw [if_pos h]

/-- C7 witness: two selected axes (and zero selected axes) are rejected; the
one-hot x-selector delegates to the general rotation about the given pivot. -/
theorem rotate_orth_selector_witness :
    rotate_orth ⟨0, 0, 0⟩ 1 0 0 0 true true false = .error axisSelectorMsg ∧
    rotate_orth ⟨0, 0, 0⟩ 1 0 0 0 false false false = .error axisSelectorMsg ∧
    rotate_orth ⟨0, 0, 0⟩ 1 0 0 0 true false false
      = .ok (Atom_rotate ⟨0, 0, 0⟩ 1 (boolToReal true) (boolToReal false) (boolToReal false)
          0 0 0) :=
  ⟨(rotate_orth_selector_spec ⟨0, 0, 0⟩ 1 0 0 0 true true false).1 (by decide),
   (rotate_orth_selector_spec ⟨0, 0, 0⟩ 1 0 0 0 false false false).1 (by decide),
   (rotate_orth_selector_spec ⟨0, 0, 0⟩ 1 0 0 0 true false false).2 (by decide)⟩

/-! ### The molecular variant constructor and the dictionary export (C10) -/

/-- A Python attribute value as stored on an atom: a string, a float, or the
builtin `type` function object (which `molecularAtom.__init__` accidentally
stores). -/
inductive PyAttr where
  | pyStr (s : String)
  | pyFloat (r : ℝ)
  | builtinTypeFn

/-- The record of attributes a `molecularAtom` instance carries. -/
structure MolecularAtom where
  atomId : PyAttr
  molId : PyAttr
  type : PyAttr
  x : ℝ
  y : ℝ
  z : ℝ

/-- `molecularAtom.__init__(atomId, molId, typeId, x, y, z)` (atom.py lines
258-268): stores `atomId` and `molId` and the coordinates, and sets `_id` to
`atomId`; the line `self.type = type` binds the Python builtin `type` function
instead of the `typeId` parameter, which is silently discarded. -/
def molecularAtom (atomId molId typeId : PyAttr) (x y z : ℝ) : MolecularAtom :=
  ⟨atomId, molId, PyAttr.builtinTypeFn, x, y, z⟩

/-- `Atom.toDict()` (atom.py lines 223-239) for the molecular variant: the
exported mapping; `item` is the fixed `Atom` tag, `id` is `_id = atomId`, and
`label` and `parent` live on the `Item` base class (not among the sources), so
they are passed in here. -/
def toDict (a : MolecularAtom) (label parent : PyAttr) : List (String × PyAttr) :=
  [("item", PyAttr.pyStr "Atom"), ("id", a.atomId), ("label", label), ("type", a.type),
   ("parent", parent), ("x", PyAttr.pyFloat a.x), ("y", PyAttr.pyFloat a.y),
   ("z", PyAttr.pyFloat a.z)]

/-- C10: the molecular-variant constructor discards the supplied type id: the
constructed particle is independent of it, its `type` attribute is the builtin
`type` function, and the dictionary export carries that builtin — not the type
id — under the `type` key. -/
theorem molecularAtom_discards_typeId (atomId molId t1 t2 : PyAttr) (x y z : ℝ)
    (label parent : PyAttr) :
    molecularAtom atomId molId t1 x y z = molecularAtom atomId molId t2 x y z ∧
    (molecularAtom atomId molId t1 x y z).type = PyAttr.builtinTypeFn ∧
    (toDict (molecularAtom atomId molId t1 x y z) label parent).lookup "type"
      = some PyAttr.builtinTypeFn :=
  ⟨rfl, rfl, rfl⟩

/-! ### Grouping utility: group_by (C5) -/

/-- An atom as the grouping utility sees it: its non-parent attributes as an
association list from attribute name to value, and its `parent` attribute. -/
structure GAtom where
  attrs : List (String × String)
  parent : String
deriving DecidableEq

/-- `getattr(atom, reference, "UNDEFINED")` (input_base.py line 36): attribute
lookup with a default; `parent` is itself an attribute of the atom, every other
name is looked up in the attribute table. -/
def keyOf (a : GAtom) (ref : String) : String :=
  if ref = "parent" then a.parent
  else (a.attrs.lookup ref).getD "UNDEFINED"

/-- `atom.parent = ref` (input_base.py line 37). -/
def setParent (a : GAtom) (ref : String) : GAtom := ⟨a.attrs, ref⟩

/-- Modelled from the spec: the external aggregate (the `Molecule` class is not
among the sources) — constructed from the group key, its parent then set to the
collection name, the atoms of the group added via `add_items`. -/
structure GMolecule where
  label : String
  parent : String
  items : List GAtom
deriving DecidableEq

/-- The first loop of `group_by` (input_base.py lines 34-38).  The
insertion-ordered `defaultdict(list)` is modelled as the pair of its key list
(in insertion order of first occurrence) and its total contents function
(defaulting to `[]`).  For each atom in order: compute its key, set its parent
to the key (in-place side effect, reflected in the returned atom list), and
append it to its group. -/
def buildGroups (ref : String) (ks : List String) (f : String → List GAtom) :
    List GAtom → List GAtom × (List String × (String → List GAtom))
  | [] => ([], (ks, f))
  | a :: rest =>
      let k := keyOf a ref
      let a' := setParent a k
      let ks' := if k ∈ ks then ks else ks ++ [k]
      let f' := Function.update f k (f k ++ [a'])
      let p := buildGroups ref ks' f' rest
      (a' :: p.1, p.2)

/-- `InputBase.group_by(filename, atoms, reference)` (input_base.py lines
22-46): partition the atoms, then build one `Molecule` per key in dict
iteration order, with parent `filename` and the group as items.  The first
component returns the mutated atoms (the in-place parent assignment). -/
def group_by (filename : String) (atoms : List GAtom) (ref : String) :
    List GAtom × List GMolecule :=
  let p := buildGroups ref [] (fun _ => []) atoms
  (p.1, p.2.1.map (fun k => ⟨k, filename, p.2.2 k⟩))

/-- Following the words of the spec: the distinct group keys of the atoms, in
insertion order of first occurrence. -/
def specKeys (ref : String) : List GAtom → List String
  | [] => []
  | a :: rest => keyOf a ref :: (specKeys ref rest).filter (fun s => s != keyOf a ref)

lemma buildGroups_atoms (ref : String) :
    ∀ (atoms : List GAtom) (ks : List String) (f : String → List GAtom),
      (buildGroups ref ks f atoms).1 = atoms.map (fun a => setParent a (keyOf a ref))
  | [], _, _ => rfl
  | a :: rest, ks, f => by
    unfold buildGroups
    dsimp only
    rw [buildGroups_atoms ref rest, List.map_cons]

lemma buildGroups_contents (ref : String) :
    ∀ (atoms : List GAtom) (ks : List String) (f : String → List GAtom) (q : String),
      (buildGroups ref ks f atoms).2.2 q
        = f q ++ (atoms.filter (fun a => keyOf a ref == q)).map
            (fun a => setParent a (keyOf a ref))
  | [], _, _, _ => by simp [buildGroups]
  | a :: rest, ks, f, q => by
    unfold buildGroups
    dsimp only
    rw [buildGroups_contents ref rest]
    by_cases hk : keyOf a ref = q
    · subst hk
      rw [Function.update_same, List.filter_cons_of_pos (by simp), List.map_cons,
        List.append_assoc, List.singleton_append]
    · rw [Function.update_noteq (Ne.symm hk), List.filter_cons_of_neg (by simp [hk])]

lemma buildGroups_keys (ref : String) :
    ∀ (atoms : List GAtom) (ks : List String) (f : String → List GAtom),
      (buildGroups ref ks f atoms).2.1
        = ks ++ (specKeys ref atoms).filter (fun k => decide (k ∉ ks))
  | [], ks, f => by simp [buildGroups, specKeys]
  | a :: rest, ks, f => by
    unfold buildGroups specKeys
    dsimp only
    by_cases hk : keyOf a ref ∈ ks
    · rw [if_pos hk, buildGroups_keys ref rest, List.filter_cons_of_neg (by simp [hk]),
        List.filter_filter]
      congr 1
      apply List.filter_congr
      intro s _
      by_cases hs : s ∈ ks
      · simp [hs]
      · have hne : s ≠ keyOf a ref := fun hsk => hs (hsk ▸ hk)
        simp [hs, hne]
    · rw [if_neg hk, buildGroups_keys ref rest,
        List.filter_cons_of_pos (by simp [hk]), List.filter_filter, List.append_assoc,
        List.singleton_append]
      congr 2
      apply List.filter_congr
      intro s _
      by_cases hs : s ∈ ks
      · simp [hs, List.mem_append]
      · by_cases hsk : s = keyOf a ref
        · simp [hsk, List.mem_append]
        · simp [hs, hsk, List.mem_append]

lemma specKeys_nodup (ref : String) : ∀ atoms : List GAtom, (specKeys ref atoms).Nodup
  | [] => List.nodup_nil
  | a :: rest => by
    unfold specKeys
    refine List.Nodup.cons ?_ (List.Nodup.filter _ (specKeys_nodup ref rest))
    intro hmem
    have := List.of_mem_filter hmem
    simp at this

/-- C5: `group_by` assigns every particle the parent equal to its group key
(the value of the reference attribute, the sentinel `"UNDEFINED"` when the
attribute is missing), and returns exactly one aggregate per distinct key, in
insertion order of first occurrence, labelled by the key, with parent the
collection name and with precisely the particles of that group, in order. -/
theorem group_by_spec (filename : String) (atoms : List GAtom) (ref : String) :
    group_by filename atoms ref
      = (atoms.map (fun a => setParent a (keyOf a ref)),
         (specKeys ref atoms).map
           (fun k => GMolecule.mk k filename
             ((atoms.filter (fun a => keyOf a ref == k)).map (fun a => setParent a k)))) ∧
    (specKeys ref atoms).Nodup ∧
    (∀ (a : GAtom) (r : String), r ≠ "parent" → a.attrs.lookup r = none →
      keyOf a r = "UNDEFINED") := by
  refine ⟨?_, specKeys_nodup ref atoms, ?_⟩
  · unfold group_by
    dsimp only
    rw [buildGroups_atoms, buildGroups_keys]
    have hkeys : ∀ l : List String,
        l.filter (fun k => decide (k ∉ ([] : List String))) = l := by
      intro l
      induction l with
      | nil => rfl
      | cons b t ih => rw [List.filter_cons_of_pos (by simp), ih]
    rw [List.nil_append, hkeys]
    refine Prod.ext rfl ?_
    apply List.map_congr_left
    intro k _
    rw [buildGroups_contents, List.nil_append]
    refine congrArg (GMolecule.mk k filename) ?_
    apply List.map_congr_left
    intro a ha
    have := List.of_mem_filter ha
    rw [beq_iff_eq] at this
    rw [this]
  · intro a r h1 h2
    unfold keyOf
    rw [if_neg h1, h2]
    rfl

/-- C5 witness: the concrete scenario of the spec — three particles, two group
keys, two aggregates in first-occurrence order with parent `"file1"`, each
particle reparented to its key; a particle lacking the attribute gets the
`"UNDEFINED"` sentinel key. -/
theorem group_by_witness :
    (group_by "file1"
        [GAtom.mk [("ref", "m1")] "", GAtom.mk [("ref", "m1")] "", GAtom.mk [("ref", "m2")] ""]
        "ref").2
      = [GMolecule.mk "m1" "file1"
           [GAtom.mk [("ref", "m1")] "m1", GAtom.mk [("ref", "m1")] "m1"],
         GMolecule.mk "m2" "file1" [GAtom.mk [("ref", "m2")] "m2"]] ∧
    keyOf (GAtom.mk [] "x") "molLabel" = "UNDEFINED" := by
  obtain ⟨h1, _, h3⟩ := group_by_spec "file1"
    [GAtom.mk [("ref", "m1")] "", GAtom.mk [("ref", "m1")] "", GAtom.mk [("ref", "m2")] ""]
    "ref"
  constructor
  · rw [h1]
    rfl
  · exact h3 (GAtom.mk [] "x") "molLabel" (by decide) rfl

end Mollab
